import Mathlib

/-!
# Verification of the `state_machine` library (src/src/lib.rs)

Shallow embedding of the Rust finite-state-machine engine:

* `State`, `Event` — value types wrapping a name string (`struct State`,
  `struct Event`).
* `RResult` — models `anyhow::Result<()>`: success or an error message.
* `Transition` — `struct Transition { trigger, new_state, action }`.
  An action `Box<dyn Fn() -> Result<()>>` is side-effecting Rust code;
  in the embedding an action is modelled by the result it returns when
  invoked (an `RResult`), which is all the verified claims observe.
* Hash maps (`HashMap<K, V>`) are modelled as association lists with an
  insert that overwrites the entry for an existing key
  (`FSM.insertPair`) and an exact-match lookup (`FSM.lookupKey`),
  matching the observable get/insert/entry behaviour used by the source.
* `StateMachine.event`, `StateMachine.reset`, `StateMachine.current_state`
  mirror the methods of `impl StateMachine`; the `RwLock<State>` cell is
  modelled as an ordinary field and mutation as functional update, so
  `event` returns the dispatch result together with the updated machine.
  Lock acquisition is modelled as always succeeding (the non-poisoned
  case is the only one a sequential embedding can enter).
* `StateMachineBuilder.new`, `.add_event`, `.build` mirror
  `impl StateMachineBuilder`.
-/

namespace FSM

/-- `pub struct State { name: String }` — equality is by name
(`#[derive(PartialEq, Eq)]` compares the single field). -/
structure State where
  name : String
deriving DecidableEq, Repr

/-- `State::new` -/
def State.new (name : String) : State :=
  { name := name }

/-- `pub struct Event { name: String }` — equality is by name. -/
structure Event where
  name : String
deriving DecidableEq, Repr

/-- `Event::new` -/
def Event.new (name : String) : Event :=
  { name := name }

/-- `#[derive(Hash)]` on `State` hashes the single `name` field, so the
hash of a `State` is a function of its name. -/
def State.hashOf (s : State) : UInt64 :=
  hash s.name

/-- `#[derive(Hash)]` on `Event` hashes the single `name` field. -/
def Event.hashOf (e : Event) : UInt64 :=
  hash e.name

/-- Models `anyhow::Result<()>`: `Ok(())` or an error carrying a message. -/
inductive RResult where
  | ok : RResult
  | err (msg : String) : RResult
deriving DecidableEq, Repr

/-- `struct Transition { trigger: Event, new_state: State, action: Option<...> }`.
The action is modelled by the `RResult` it returns when invoked. -/
structure Transition where
  trigger : Event
  new_state : State
  action : Option RResult
deriving DecidableEq, Repr

/-- Exact-match lookup in an association list, modelling `HashMap::get`. -/
def lookupKey {α β : Type} [DecidableEq α] (k : α) : List (α × β) → Option β
  | [] => none
  | (k', v) :: rest => if k = k' then some v else lookupKey k rest

/-- Insert that overwrites any existing entry for the key, modelling
`HashMap::insert` (last write wins). -/
def insertPair {α β : Type} [DecidableEq α] (k : α) (v : β) : List (α × β) → List (α × β)
  | [] => [(k, v)]
  | (k', v') :: rest => if k = k' then (k, v) :: rest else (k', v') :: insertPair k v rest

/-- The transition table type: `HashMap<State, HashMap<Event, Transition>>`. -/
abbrev Table := List (State × List (Event × Transition))

/-- `pub struct StateMachine` — the `RwLock<State>` current-state cell is
the `state` field. -/
structure StateMachine where
  name : String
  state : State
  initial_state : State
  events : Table
deriving DecidableEq, Repr

/-- The message built by `anyhow::anyhow!("no transition found for event
{event} in state {state}")`; `derive_more::Display` on a single-field
struct prints the field, i.e. the name. -/
def noTransitionMsg (e : Event) (s : State) : String :=
  "no transition found for event " ++ e.name ++ " in state " ++ s.name

/-- `StateMachine::event` (dispatch). Mirrors the source: look up the
current state's event map; if a transition is found, commit the new state
to the cell, then invoke the action if present and return its result
(`Ok(())` when there is no action); otherwise return the "no transition"
error and leave the state unchanged. The updated machine is returned
alongside the result (the source mutates through the write lock). -/
def StateMachine.event (m : StateMachine) (e : Event) : RResult × StateMachine :=
  match lookupKey m.state m.events with
  | some state_events =>
    match lookupKey e state_events with
    | some t =>
      let m' := { m with state := t.new_state }
      match t.action with
      | some r => (r, m')
      | none => (RResult.ok, m')
    | none => (RResult.err (noTransitionMsg e m.state), m)
  | none => (RResult.err (noTransitionMsg e m.state), m)

/-- `StateMachine::reset`: unconditionally writes the initial state back
into the current-state cell. -/
def StateMachine.reset (m : StateMachine) : StateMachine :=
  { m with state := m.initial_state }

/-- `StateMachine::current_state`: reads the current-state cell. -/
def StateMachine.current_state (m : StateMachine) : State :=
  m.state

/-- `pub struct StateMachineBuilder` — same fields as the machine. -/
structure StateMachineBuilder where
  name : String
  state : State
  initial_state : State
  events : Table
deriving DecidableEq, Repr

/-- `StateMachineBuilder::new(name, initial_state)`: the current-state
cell starts at the initial state and the table is empty. An initial
state is a required argument, so every builder has one. -/
def StateMachineBuilder.new (name : String) (initial_state : State) : StateMachineBuilder :=
  { name := name
    state := initial_state
    initial_state := initial_state
    events := [] }

/-- `StateMachineBuilder::add_event(old_state, event, new_state, action)`:
`self.events.entry(old_state).or_insert_with(HashMap::new)` followed by
`state_events.insert(event, t)`. -/
def StateMachineBuilder.add_event (b : StateMachineBuilder) (old_state : State)
    (event : Event) (new_state : State) (action : Option RResult) : StateMachineBuilder :=
  let state_events := (lookupKey old_state b.events).getD []
  let t : Transition := { trigger := event, new_state := new_state, action := action }
  { b with events := insertPair old_state (insertPair event t state_events) b.events }

/-- `StateMachineBuilder::build`: moves the accumulated fields into the
machine unchanged; it is total (cannot fail or panic). -/
def StateMachineBuilder.build (b : StateMachineBuilder) : StateMachine :=
  { name := b.name
    state := b.state
    initial_state := b.initial_state
    events := b.events }

/-- The lookup chain `dispatch` performs for a (state, event) pair. -/
def tableLookup (tbl : Table) (s : State) (e : Event) : Option Transition :=
  match lookupKey s tbl with
  | some state_events => lookupKey e state_events
  | none => none

/-- All states that appear as a transition target somewhere in the table. -/
def tableTargets : Table → List State
  | [] => []
  | (_, state_events) :: rest =>
      state_events.map (fun q => q.2.new_state) ++ tableTargets rest

/-- One external call to the machine: a dispatch or a reset. -/
inductive Op where
  | dispatch (e : Event) : Op
  | reset : Op

/-- Run a finite sequence of dispatch/reset calls, discarding results. -/
def StateMachine.run (m : StateMachine) : List Op → StateMachine
  | [] => m
  | Op.dispatch e :: rest => ((m.event e).2).run rest
  | Op.reset :: rest => (m.reset).run rest

/-- Accumulate a list of transitions into a builder with `add_event`. -/
def StateMachineBuilder.add_all (b : StateMachineBuilder) :
    List (State × Event × State × Option RResult) → StateMachineBuilder
  | [] => b
  | (s, e, t, a) :: rest => (b.add_event s e t a).add_all rest

/-! ## Basic lemmas about the map model and the dispatch engine -/

theorem lookupKey_insertPair_self {α β : Type} [DecidableEq α] (k : α) (v : β)
    (l : List (α × β)) : lookupKey k (insertPair k v l) = some v := by
  induction l with
  | nil => simp [insertPair, lookupKey]
  | cons hd tl ih =>
    obtain ⟨k', v'⟩ := hd
    by_cases h : k = k'
    · simp [insertPair, lookupKey, h]
    · simp [insertPair, lookupKey, h, ih]

theorem lookupKey_insertPair_ne {α β : Type} [DecidableEq α] {k k' : α} (v : β)
    (l : List (α × β)) (h : k' ≠ k) :
    lookupKey k' (insertPair k v l) = lookupKey k' l := by
  induction l with
  | nil => simp [insertPair, lookupKey, h]
  | cons hd tl ih =>
    obtain ⟨k'', v''⟩ := hd
    by_cases hk : k = k''
    · subst hk
      simp [insertPair, lookupKey, h]
    · by_cases hk' : k' = k''
      · simp [insertPair, lookupKey, hk, hk']
      · simp [insertPair, lookupKey, hk, hk', ih]

theorem tableLookup_add_event (b : StateMachineBuilder) (s : State) (e : Event)
    (t : State) (a : Option RResult) :
    tableLookup (b.add_event s e t a).events s e =
      some { trigger := e, new_state := t, action := a } := by
  simp [StateMachineBuilder.add_event, tableLookup, lookupKey_insertPair_self]

theorem event_of_tableLookup_some (m : StateMachine) (e : Event) (t : Transition)
    (h : tableLookup m.events m.state e = some t) :
    m.event e = (t.action.getD RResult.ok, { m with state := t.new_state }) := by
  unfold tableLookup at h
  unfold StateMachine.event
  cases hs : lookupKey m.state m.events with
  | none => rw [hs] at h; exact absurd h (by simp)
  | some state_events =>
    rw [hs] at h
    simp only at h
    simp only [h]
    cases ha : t.action <;> simp [ha]

theorem event_of_tableLookup_none (m : StateMachine) (e : Event)
    (h : tableLookup m.events m.state e = none) :
    m.event e = (RResult.err (noTransitionMsg e m.state), m) := by
  unfold tableLookup at h
  unfold StateMachine.event
  cases hs : lookupKey m.state m.events with
  | none => simp
  | some state_events =>
    rw [hs] at h
    simp only at h
    simp only [h]

theorem event_initial_state (m : StateMachine) (e : Event) :
    (m.event e).2.initial_state = m.initial_state := by
  unfold StateMachine.event
  cases hs : lookupKey m.state m.events with
  | none => simp
  | some state_events =>
    cases ht : lookupKey e state_events with
    | none => simp [ht]
    | some t => cases ha : t.action <;> simp [ht, ha]

theorem event_events (m : StateMachine) (e : Event) :
    (m.event e).2.events = m.events := by
  unfold StateMachine.event
  cases hs : lookupKey m.state m.events with
  | none => simp
  | some state_events =>
    cases ht : lookupKey e state_events with
    | none => simp [ht]
    | some t => cases ha : t.action <;> simp [ht, ha]

theorem event_state_cases (m : StateMachine) (e : Event) :
    (m.event e).2.state = m.state ∨
      ∃ t, tableLookup m.events m.state e = some t ∧ (m.event e).2.state = t.new_state := by
  cases h : tableLookup m.events m.state e with
  | none => left; rw [event_of_tableLookup_none m e h]
  | some t =>
    right
    exact ⟨t, rfl, by rw [event_of_tableLookup_some m e t h]⟩

theorem mem_tableTargets_of_tableLookup {tbl : Table} {s : State} {e : Event}
    {t : Transition} (h : tableLookup tbl s e = some t) :
    t.new_state ∈ tableTargets tbl := by
  induction tbl with
  | nil => simp [tableLookup, lookupKey] at h
  | cons hd tl ih =>
    obtain ⟨s', state_events⟩ := hd
    by_cases hs : s = s'
    · simp only [tableLookup, lookupKey, hs, if_pos rfl] at h
      have : t ∈ state_events.map Prod.snd := by
        clear ih
        induction state_events with
        | nil => simp [lookupKey] at h
        | cons q qs ihq =>
          obtain ⟨e', t'⟩ := q
          by_cases he : e = e'
          · simp [lookupKey, he] at h
            simp [h]
          · simp [lookupKey, he] at h
            simp [ihq h]
      simp only [tableTargets, List.mem_append]
      left
      simp only [List.mem_map] at this ⊢
      obtain ⟨q, hq, hqt⟩ := this
      exact ⟨q, hq, by rw [hqt]⟩
    · simp only [tableLookup, lookupKey, if_neg hs] at h
      simp only [tableTargets, List.mem_append]
      right
      exact ih h

/-! ## Frame and invariant lemmas -/

theorem run_initial_state (m : StateMachine) (ops : List Op) :
    (m.run ops).initial_state = m.initial_state := by
  induction ops generalizing m with
  | nil => rfl
  | cons op rest ih =>
    cases op with
    | dispatch e =>
      show (((m.event e).2).run rest).initial_state = m.initial_state
      rw [ih, event_initial_state]
    | reset =>
      show ((m.reset).run rest).initial_state = m.initial_state
      rw [ih]
      rfl

theorem run_events (m : StateMachine) (ops : List Op) :
    (m.run ops).events = m.events := by
  induction ops generalizing m with
  | nil => rfl
  | cons op rest ih =>
    cases op with
    | dispatch e =>
      show (((m.event e).2).run rest).events = m.events
      rw [ih, event_events]
    | reset =>
      show ((m.reset).run rest).events = m.events
      rw [ih]
      rfl

theorem run_preserves_inv (ops : List Op) (m : StateMachine)
    (h : m.state = m.initial_state ∨ m.state ∈ tableTargets m.events) :
    (m.run ops).state = m.initial_state ∨ (m.run ops).state ∈ tableTargets m.events := by
  induction ops generalizing m with
  | nil => exact h
  | cons op rest ih =>
    cases op with
    | dispatch e =>
      show (((m.event e).2).run rest).state = m.initial_state ∨
        (((m.event e).2).run rest).state ∈ tableTargets m.events
      rw [← event_initial_state m e, ← event_events m e]
      apply ih
      rw [event_initial_state, event_events]
      rcases event_state_cases m e with hst | ⟨t, hlk, hst⟩
      · rw [hst]; exact h
      · right
        rw [hst]
        exact mem_tableTargets_of_tableLookup hlk
    | reset =>
      show ((m.reset).run rest).state = m.initial_state ∨
        ((m.reset).run rest).state ∈ tableTargets m.events
      apply ih
      left
      rfl

theorem add_all_state (ts : List (State × Event × State × Option RResult))
    (b : StateMachineBuilder) : (b.add_all ts).state = b.state := by
  induction ts generalizing b with
  | nil => rfl
  | cons hd tl ih =>
    obtain ⟨s, e, t, a⟩ := hd
    show ((b.add_event s e t a).add_all tl).state = b.state
    rw [ih]
    rfl

theorem add_all_initial_state (ts : List (State × Event × State × Option RResult))
    (b : StateMachineBuilder) : (b.add_all ts).initial_state = b.initial_state := by
  induction ts generalizing b with
  | nil => rfl
  | cons hd tl ih =>
    obtain ⟨s, e, t, a⟩ := hd
    show ((b.add_event s e t a).add_all tl).initial_state = b.initial_state
    rw [ih]
    rfl

/-! ## Sample machines used by the witnesses -/

/-- Concrete state named "A". -/
def stA : State := State.new "A"

/-- Concrete state named "B". -/
def stB : State := State.new "B"

/-- Concrete event named "go". -/
def evGo : Event := Event.new "go"

/-- Concrete event named "back". -/
def evBack : Event := Event.new "back"

/-- A machine with initial state A, a transition (A, go) → B whose action
fails with "boom", and a transition (B, back) → A with no action. -/
def sampleMachine : StateMachine :=
  (((StateMachineBuilder.new "sample" stA).add_event stA evGo stB
      (some (RResult.err "boom"))).add_event stB evBack stA none).build

/-- The cyclic machine of the spec scenario: A→B on "go", B→A on "back",
no actions. -/
def cyclicMachine : StateMachine :=
  (((StateMachineBuilder.new "cyclic" stA).add_event stA evGo stB none).add_event
      stB evBack stA none).build

/-! ## Claim theorems -/

/-- C1: for every transition registered for (current state, event e) with
target s', `event e` (dispatch) moves the current state to s'
unconditionally — whether the action succeeds, fails, or is absent — and
returns the action's result (`ok` when there is no action); the state is
not rolled back on failure. -/
theorem dispatch_registered_transition (m : StateMachine) (e : Event) (t : Transition)
    (h : tableLookup m.events m.state e = some t) :
    ((m.event e).2).current_state = t.new_state ∧
    (m.event e).1 = t.action.getD RResult.ok ∧
    (∀ msg, t.action = some (RResult.err msg) →
      (m.event e).1 = RResult.err msg ∧ ((m.event e).2).current_state = t.new_state) := by
  have he := event_of_tableLookup_some m e t h
  refine ⟨?_, ?_, ?_⟩
  · rw [he]; rfl
  · rw [he]
  · intro msg ha
    rw [he, ha]
    exact ⟨rfl, rfl⟩

/-- Witness for C1 on `sampleMachine`: the transition (A, go) → B with a
failing action is taken, the state advances to B, and the failure is
returned. -/
theorem dispatch_registered_transition_witness :
    tableLookup sampleMachine.events sampleMachine.state evGo =
      some { trigger := evGo, new_state := stB, action := some (RResult.err "boom") } ∧
    (((sampleMachine.event evGo).2).current_state = stB ∧
     (sampleMachine.event evGo).1 = (some (RResult.err "boom")).getD RResult.ok ∧
     (∀ msg, some (RResult.err "boom") = some (RResult.err msg) →
       (sampleMachine.event evGo).1 = RResult.err msg ∧
       ((sampleMachine.event evGo).2).current_state = stB)) :=
  ⟨by decide, dispatch_registered_transition sampleMachine evGo
    { trigger := evGo, new_state := stB, action := some (RResult.err "boom") } (by decide)⟩

/-- C2: when no transition is registered for (current state, event) —
either the state has no entry or its entry lacks the event — dispatch
returns the "no transition" error, whose message contains both the event
name and the current state name, and the machine (in particular its
current state) is unchanged. -/
theorem dispatch_no_transition (m : StateMachine) (e : Event)
    (h : tableLookup m.events m.state e = none) :
    m.event e = (RResult.err (noTransitionMsg e m.state), m) ∧
    (∃ p q : String, noTransitionMsg e m.state = p ++ e.name ++ q) ∧
    (∃ p q : String, noTransitionMsg e m.state = p ++ m.state.name ++ q) := by
  refine ⟨event_of_tableLookup_none m e h,
    ⟨"no transition found for event ", " in state " ++ m.state.name, ?_⟩,
    ⟨"no transition found for event " ++ e.name ++ " in state ", "", ?_⟩⟩
  · simp [noTransitionMsg, String.append_assoc]
  · simp [noTransitionMsg, String.append_empty]

/-- Witness for C2 on `sampleMachine`: no transition for (A, back). -/
theorem dispatch_no_transition_witness :
    tableLookup sampleMachine.events sampleMachine.state evBack = none ∧
    (sampleMachine.event evBack =
        (RResult.err (noTransitionMsg evBack sampleMachine.state), sampleMachine) ∧
     (∃ p q : String, noTransitionMsg evBack sampleMachine.state = p ++ evBack.name ++ q) ∧
     (∃ p q : String,
        noTransitionMsg evBack sampleMachine.state = p ++ sampleMachine.state.name ++ q)) :=
  ⟨by decide, dispatch_no_transition sampleMachine evBack (by decide)⟩

/-- C3: `reset` sets the current state back to the initial state from any
state whatsoever, and changes nothing else about the machine; it is a
total function (it cannot fail under the modelled, non-poisoned
operation). -/
theorem reset_restores_initial (m : StateMachine) :
    (m.reset).current_state = m.initial_state ∧
    m.reset = { m with state := m.initial_state } :=
  ⟨rfl, rfl⟩

/-- C5: `build` is total (it can neither fail nor panic) and produces a
machine whose initial state and transition table are exactly the
builder's; `StateMachineBuilder.new` requires an initial state, so every
builder has one designated, which makes the claimed failure condition
"no initial state was designated" unsatisfiable. -/
theorem build_preserves_builder (b : StateMachineBuilder) :
    (b.build).initial_state = b.initial_state ∧
    (b.build).events = b.events ∧
    (b.build).name = b.name ∧
    (b.build).state = b.state ∧
    (∀ (nm : String) (init : State), (StateMachineBuilder.new nm init).initial_state = init) :=
  ⟨rfl, rfl, rfl, rfl, fun _ _ => rfl⟩

/-- C6: adding a second transition for the same (from-state, event) pair
silently overwrites the first: the table afterwards maps the pair to the
later target and action. `add_event` is total, so there is no
duplicate-detection error. -/
theorem add_event_last_write_wins (b : StateMachineBuilder) (s : State) (e : Event)
    (t₁ t₂ : State) (a₁ a₂ : Option RResult) :
    tableLookup ((b.add_event s e t₁ a₁).add_event s e t₂ a₂).events s e =
      some { trigger := e, new_state := t₂, action := a₂ } :=
  tableLookup_add_event (b.add_event s e t₁ a₁) s e t₂ a₂

/-- C7: on the cyclic machine (A→B on "go", B→A on "back"), dispatching
"go" then "back" succeeds, ends with current state A, and returns the
machine to a value equal to the never-dispatched machine. -/
theorem cyclic_round_trip :
    (cyclicMachine.event evGo).1 = RResult.ok ∧
    ((cyclicMachine.event evGo).2).current_state = stB ∧
    ((((cyclicMachine.event evGo).2).event evBack).2).current_state = stA ∧
    (((cyclicMachine.event evGo).2).event evBack).2 = cyclicMachine := by
  decide

/-- C8: `State` and `Event` values compare equal exactly when their
wrapped names are equal; equal names give equal (derived, field-wise)
hashes; and a transition registered under one identifier value is found
by dispatch when presented with another value carrying the same name. -/
theorem ids_equal_iff_names (s₁ s₂ : State) (e₁ e₂ : Event) :
    (s₁ = s₂ ↔ s₁.name = s₂.name) ∧
    (e₁ = e₂ ↔ e₁.name = e₂.name) ∧
    (s₁.name = s₂.name → State.hashOf s₁ = State.hashOf s₂) ∧
    (e₁.name = e₂.name → Event.hashOf e₁ = Event.hashOf e₂) ∧
    (∀ (nm : String) (tgt : State) (a : Option RResult),
      s₁.name = s₂.name → e₁.name = e₂.name →
      ((((StateMachineBuilder.new nm s₂).add_event s₁ e₁ tgt a).build).event e₂).1 =
          a.getD RResult.ok ∧
      (((((StateMachineBuilder.new nm s₂).add_event s₁ e₁ tgt a).build).event e₂).2).current_state
          = tgt) := by
  have hs : s₁ = s₂ ↔ s₁.name = s₂.name := by
    constructor
    · intro h; rw [h]
    · intro h; cases s₁; cases s₂; simpa using h
  have he : e₁ = e₂ ↔ e₁.name = e₂.name := by
    constructor
    · intro h; rw [h]
    · intro h; cases e₁; cases e₂; simpa using h
  refine ⟨hs, he, fun h => by rw [State.hashOf, State.hashOf, h],
    fun h => by rw [Event.hashOf, Event.hashOf, h], ?_⟩
  intro nm tgt a hns hne
  have hs' : s₁ = s₂ := hs.mpr hns
  have he' : e₁ = e₂ := he.mpr hne
  subst hs'
  subst he'
  have hlk : tableLookup (((StateMachineBuilder.new nm s₁).add_event s₁ e₁ tgt a).build).events
      (((StateMachineBuilder.new nm s₁).add_event s₁ e₁ tgt a).build).state e₁ =
      some { trigger := e₁, new_state := tgt, action := a } :=
    tableLookup_add_event (StateMachineBuilder.new nm s₁) s₁ e₁ tgt a
  have hev := event_of_tableLookup_some
    (((StateMachineBuilder.new nm s₁).add_event s₁ e₁ tgt a).build) e₁
    { trigger := e₁, new_state := tgt, action := a } hlk
  rw [hev]
  exact ⟨rfl, rfl⟩

/-- Witness for C8 at two identifiers built from the same names. -/
theorem ids_equal_iff_names_witness :
    (State.new "A").name = (State.new "A").name ∧
    ((((StateMachineBuilder.new "w" (State.new "A")).add_event (State.new "A")
        (Event.new "go") (State.new "B") none).build).event (Event.new "go")).1 =
      (none : Option RResult).getD RResult.ok :=
  ⟨rfl, ((ids_equal_iff_names (State.new "A") (State.new "A") (Event.new "go")
    (Event.new "go")).2.2.2.2 "w" (State.new "B") none rfl rfl).1⟩

/-- C9: for any machine produced by the builder, after any finite sequence
of dispatch and reset calls, the current state is either the designated
initial state or the target of some transition in the table. -/
theorem run_state_initial_or_target (nm : String) (init : State)
    (ts : List (State × Event × State × Option RResult)) (ops : List Op) :
    ((((StateMachineBuilder.new nm init).add_all ts).build).run ops).state =
        (((StateMachineBuilder.new nm init).add_all ts).build).initial_state ∨
    ((((StateMachineBuilder.new nm init).add_all ts).build).run ops).state ∈
        tableTargets (((StateMachineBuilder.new nm init).add_all ts).build).events := by
  apply run_preserves_inv
  left
  show ((StateMachineBuilder.new nm init).add_all ts).state =
    ((StateMachineBuilder.new nm init).add_all ts).initial_state
  rw [add_all_state, add_all_initial_state]
  rfl

/-- C10: `add_event` for the pair (s, e) leaves the transition looked up
for every other (state, event) pair unchanged. -/
theorem add_event_frame (b : StateMachineBuilder) (s : State) (e : Event)
    (tgt : State) (a : Option RResult) (s' : State) (e' : Event)
    (h : ¬(s' = s ∧ e' = e)) :
    tableLookup (b.add_event s e tgt a).events s' e' = tableLookup b.events s' e' := by
  by_cases hs : s' = s
  · subst hs
    have hne : e' ≠ e := fun hee => h ⟨rfl, hee⟩
    show tableLookup
      (insertPair s' (insertPair e { trigger := e, new_state := tgt, action := a }
        ((lookupKey s' b.events).getD [])) b.events) s' e' = tableLookup b.events s' e'
    simp only [tableLookup, lookupKey_insertPair_self]
    rw [lookupKey_insertPair_ne _ _ hne]
    cases hb : lookupKey s' b.events with
    | none => simp [hb, lookupKey]
    | some state_events => simp [hb]
  · show tableLookup
      (insertPair s (insertPair e { trigger := e, new_state := tgt, action := a }
        ((lookupKey s b.events).getD [])) b.events) s' e' = tableLookup b.events s' e'
    unfold tableLookup
    rw [lookupKey_insertPair_ne _ _ hs]

/-- Witness for C10: registering (A, go) → B does not change the lookup
for the distinct pair (A, back). -/
theorem add_event_frame_witness :
    ¬(stA = stA ∧ evBack = evGo) ∧
    tableLookup ((StateMachineBuilder.new "w" stA).add_event stA evGo stB none).events
        stA evBack =
      tableLookup (StateMachineBuilder.new "w" stA).events stA evBack :=
  ⟨by decide, add_event_frame (StateMachineBuilder.new "w" stA) stA evGo stB none
    stA evBack (by decide)⟩

end FSM
